import Mathlib

/-!
Shallow embedding of the graphql-yoga request pipeline
(`packages/common/src/server.ts`, `plugins/useCORS.ts`, `plugins/useHealthCheck.ts`)
together with a spec-modelled multipart decoder, and proofs of the spec claims.

Bodies of HTTP responses are modelled at the JSON level: a body produced by
`JSON.stringify(v)` (or a string literal whose content is JSON text) is
modelled as the JSON value `v` itself; `response.json()` succeeds exactly on
requests whose modelled body is present.
-/

namespace Yoga

/-- JSON values, used to model JavaScript values, request/response bodies and
context entries. -/
inductive Json where
  | null
  | bool (b : Bool)
  | num (n : Int)
  | str (s : String)
  | arr (items : List Json)
  | obj (fields : List (String × Json))
deriving Repr

/-- Field lookup on a JSON value, as JavaScript property access / object
destructuring: `undefined` (`none`) on non-objects and missing keys. -/
def jsonObjGet (j : Json) (k : String) : Option Json :=
  match j with
  | .obj fields => (fields.find? (fun p => p.1 = k)).map (·.2)
  | _ => none

/-- A JavaScript `Record<string, string>` used for header maps: assignment
`headers[k] = v` overwrites an existing entry in place, otherwise appends. -/
def setHeader (hs : List (String × String)) (k v : String) :
    List (String × String) :=
  if hs.any (fun p => p.1 = k) then
    hs.map (fun p => if p.1 = k then (k, v) else p)
  else
    hs ++ [(k, v)]

/-- Reading `headers[k]` / `headers.get(k)`: `none` models `null`/`undefined`. -/
def getHeader (hs : List (String × String)) (k : String) : Option String :=
  (hs.find? (fun p => p.1 = k)).map (·.2)

/-- JavaScript truthiness of a nullable string (`null`, `undefined` and `""`
are falsy). -/
def strTruthy : Option String → Bool
  | some s => s ≠ ""
  | none => false

/-- `pat` is an initial segment of `l` (computable character comparison). -/
def listStarts (pat l : List Char) : Bool :=
  match pat, l with
  | [], _ => true
  | _ :: _, [] => false
  | p :: ps, c :: cs => p = c && listStarts ps cs

/-- JavaScript `String.prototype.toUpperCase` restricted to ASCII, modelled
character by character. -/
def jsToUpperCase (s : String) : String :=
  String.mk (s.data.map Char.toUpper)

/-- `url.split('?')[0]`: the URL up to (excluding) the first `?`. -/
def pathBeforeQuery (s : String) : String :=
  String.mk (s.data.takeWhile (fun c => c ≠ '?'))

/-- JavaScript `String.prototype.endsWith`. -/
def strEndsWith (s suff : String) : Bool :=
  listStarts suff.data.reverse s.data.reverse

/-- Replace the first occurrence of `pat` (scanning left to right). -/
def replaceFirstAux (pat rep : List Char) : List Char → List Char
  | [] => []
  | c :: cs =>
      if listStarts pat (c :: cs) then rep ++ (c :: cs).drop pat.length
      else c :: replaceFirstAux pat rep cs

/-- JavaScript `String.prototype.replace` with a string pattern: replaces the
first occurrence only. -/
def replaceFirst (s pat rep : String) : String :=
  String.mk (replaceFirstAux pat.data rep.data s.data)

/-- Split a character list at every occurrence of `sep`. -/
def splitChar (sep : Char) : List Char → List (List Char)
  | [] => [[]]
  | c :: cs =>
      if c = sep then [] :: splitChar sep cs
      else
        match splitChar sep cs with
        | [] => [[c]]
        | x :: xs => (c :: x) :: xs

/-- JavaScript `String.prototype.split` with a single-character separator. -/
def jsSplit (s : String) (sep : Char) : List String :=
  (splitChar sep s.data).map String.mk

/-- An incoming HTTP request.  Header names are stored lowercased, matching
the case-insensitive `Headers.get` calls in the source. -/
structure Request where
  method : String
  url : String
  headers : List (String × String) := []
deriving Repr, DecidableEq

def Request.getHeader (req : Request) (k : String) : Option String :=
  Yoga.getHeader req.headers k

/-- An HTTP response as produced by `new Response(body, init)`.  `body = none`
models a `null` body. -/
structure Response where
  status : Nat := 200
  statusText : String := ""
  headers : List (String × String) := []
  body : Option Json := none
deriving Repr

/-- A thrown JavaScript error: either a `GraphQLError` instance (rendered raw
by the fatal handler) or any other error, of which only `.message` is used. -/
inductive JsError where
  | graphQL (err : Json)
  | other (message : String)
deriving Repr

/-- The JSON rendering of a caught error used by the fatal fallback of
`handleRequest`: a `GraphQLError` is embedded raw, anything else is reduced
to an object holding only its message. -/
def errorJson : JsError → Json
  | .graphQL j => j
  | .other m => Json.obj [("message", Json.str m)]

/-- The response built by the `catch` block of `handleRequest`
(`server.ts` lines 445-462). -/
def fatalErrorResponse (e : JsError) : Response :=
  { status := 500
    statusText := "Internal Server Error"
    headers := []
    body := some (Json.obj [("errors", Json.arr [errorJson e])]) }

/-- `GraphQLParams` (`types.ts`): the normalized ParamBag.  Absent fields are
`none`, as in the TypeScript optional fields. -/
structure GraphQLParams where
  operationName : Option String := none
  query : Option String := none
  «variables» : Option Json := none
  extensions : Option Json := none
deriving Repr

/-- The empty ParamBag `{}` produced by the default no-op request parser. -/
def emptyParams : GraphQLParams := {}

end Yoga

namespace Yoga

/-- A value stored in the initial context object: the `request` key holds the
request itself, every other entry is a JavaScript (JSON-modelled) value. -/
inductive CtxVal where
  | request (r : Request)
  | json (j : Json)
deriving Repr

/-- A JavaScript object built by spread syntax, as an insertion sequence;
later entries shadow earlier ones. -/
abbrev Ctx := List (String × CtxVal)

/-- Property lookup on a spread-built object: the last binding for a key
wins, matching `{...a, ...b}` overwrite semantics. -/
def ctxGet (c : Ctx) (k : String) : Option CtxVal :=
  (c.reverse.find? (fun p => p.1 = k)).map (·.2)

/-- The fields contributed by spreading a `GraphQLParams` object: only the
present (non-`undefined`) fields appear. -/
def GraphQLParams.fields (p : GraphQLParams) : Ctx :=
  (match p.operationName with
   | some v => [("operationName", CtxVal.json (Json.str v))]
   | none => []) ++
  (match p.query with
   | some v => [("query", CtxVal.json (Json.str v))]
   | none => []) ++
  (match p.«variables» with
   | some v => [("variables", CtxVal.json v)]
   | none => []) ++
  (match p.extensions with
   | some v => [("extensions", CtxVal.json v)]
   | none => [])

/-- The initial context `{ request, ...params, ...serverContext }` built by
`handleRequest` (`server.ts` lines 415-419). -/
def initialContext (req : Request) (params : GraphQLParams)
    (serverContext : Ctx) : Ctx :=
  ("request", CtxVal.request req) :: (params.fields ++ serverContext)

end Yoga

namespace Yoga

/-- A phase-1 completion (`onRequestDone`) hook.  Its return value is ignored
by the engine; it observes the response and may throw. -/
abbrev DoneHook := Response → Except JsError Unit

/-- What one `onRequest` hook invocation leaves behind: the final value of the
per-iteration `response` variable (set by `endResponse`, `none` if never
called) and the optional `onRequestDone` completion callback it returned. -/
structure HookOutcome where
  response : Option Response := none
  onRequestDone : Option DoneHook := none

/-- An `onRequest` hook: runs against the request and either completes with a
`HookOutcome` or throws. -/
abbrev OnRequestHook := Request → Except JsError HookOutcome

/-- A request parser: `(request) => GraphQLParams`, possibly throwing. -/
abbrev RequestParser := Request → Except JsError GraphQLParams

/-- The default no-op parser `() => ({})` installed before the
parser-selection phase (`server.ts` line 386). -/
def defaultRequestParser : RequestParser := fun _ => .ok emptyParams

/-- A parse-completion (`onRequestParseDone`) hook: observes the current
params and optionally replaces them wholesale via `setParams`. -/
abbrev ParseDoneHook := GraphQLParams → Except JsError (Option GraphQLParams)

/-- What one `onRequestParse` hook invocation leaves behind: the final parser
passed to `setRequestParser` (if called) and the optional parse-done hook. -/
structure ParseOutcome where
  setParser : Option RequestParser := none
  onRequestParseDone : Option ParseDoneHook := none

/-- An `onRequestParse` hook: receives the request and the currently active
parser, and either completes with a `ParseOutcome` or throws. -/
abbrev OnRequestParseHook :=
  Request → RequestParser → Except JsError ParseOutcome

/-- Observable events of the early-intercept phase: hook number `i` started
executing, or the done hook registered by hook number `i` ran against a
response. -/
inductive Ev where
  | hookStart (i : Nat)
  | doneRun (i : Nat) (r : Response)
deriving Repr

/-- Run the accumulated done hooks in registration order against the produced
response (`server.ts` lines 379-381 and 441-443), tracing each run. -/
def runDoneHooks (hooks : List (Nat × DoneHook)) (r : Response) :
    Except JsError (List Ev) :=
  match hooks with
  | [] => .ok []
  | (i, h) :: t =>
      match h r with
      | .error e => .error e
      | .ok _ =>
          match runDoneHooks t r with
          | .error e => .error e
          | .ok evs => .ok (Ev.doneRun i r :: evs)

/-- The early-intercept loop (`server.ts` lines 365-384): run each `onRequest`
hook in order, append its done hook to the accumulator, and stop — running
all accumulated done hooks — as soon as a hook has produced a response via
`endResponse`. -/
def earlyPhase (hooks : List OnRequestHook) (i : Nat) (req : Request)
    (acc : List (Nat × DoneHook)) :
    Except JsError (Option Response × List (Nat × DoneHook) × List Ev) :=
  match hooks with
  | [] => .ok (none, acc, [])
  | h :: rest =>
      match h req with
      | .error e => .error e
      | .ok out =>
          match out.response, (match out.onRequestDone with
                               | some d => acc ++ [(i, d)]
                               | none => acc) with
          | some r, acc' =>
              (match runDoneHooks acc' r with
               | .error e => .error e
               | .ok evs => .ok (some r, acc', Ev.hookStart i :: evs))
          | none, acc' =>
              (match earlyPhase rest (i + 1) req acc' with
               | .error e => .error e
               | .ok (o, a, evs) => .ok (o, a, Ev.hookStart i :: evs))

/-- The parser-selection loop (`server.ts` lines 386-401): each
`onRequestParse` hook sees the current parser; a call to `setRequestParser`
replaces it for all subsequent hooks and for the final parse step. -/
def parseSelectPhase (hooks : List OnRequestParseHook) (req : Request)
    (current : RequestParser) (acc : List ParseDoneHook) :
    Except JsError (RequestParser × List ParseDoneHook) :=
  match hooks with
  | [] => .ok (current, acc)
  | h :: rest =>
      match h req current with
      | .error e => .error e
      | .ok out =>
          parseSelectPhase rest req (out.setParser.getD current)
            (match out.onRequestParseDone with
             | some d => acc ++ [d]
             | none => acc)

/-- Run the accumulated parse-done hooks in order (`server.ts` lines
406-413); a hook calling `setParams` replaces the params wholesale for the
remaining hooks. -/
def runParseDoneHooks (hooks : List ParseDoneHook) (params : GraphQLParams) :
    Except JsError GraphQLParams :=
  match hooks with
  | [] => .ok params
  | h :: t =>
      match h params with
      | .error e => .error e
      | .ok upd => runParseDoneHooks t (upd.getD params)

/-- The collaborating pieces of one server instance that `handleRequest`
dispatches to: the collected `onRequest` hooks, the collected
`onRequestParse` hooks, and the external execution engine (the
`getEnveloped` + `processRequest` pair), which receives the request and the
merged initial context and renders a response. -/
structure PipelineEnv where
  onRequestHooks : List OnRequestHook
  onRequestParseHooks : List OnRequestParseHook
  engine : Request → Ctx → Except JsError Response

/-- The body of `handleRequest`'s `try` block (`server.ts` lines 364-444). -/
def handleRequestAux (env : PipelineEnv) (req : Request)
    (serverContext : Ctx) : Except JsError Response :=
  match earlyPhase env.onRequestHooks 0 req [] with
  | .error e => .error e
  | .ok (some r, _, _) => .ok r
  | .ok (none, doneHooks, _) =>
      match parseSelectPhase env.onRequestParseHooks req
          defaultRequestParser [] with
      | .error e => .error e
      | .ok (requestParser, parseDoneHooks) =>
          match requestParser req with
          | .error e => .error e
          | .ok params0 =>
              match runParseDoneHooks parseDoneHooks params0 with
              | .error e => .error e
              | .ok params =>
                  match env.engine req
                      (initialContext req params serverContext) with
                  | .error e => .error e
                  | .ok resp =>
                      match runDoneHooks doneHooks resp with
                      | .error e => .error e
                      | .ok _ => .ok resp

/-- `handleRequest` (`server.ts` lines 357-463): the `try` body wrapped in the
single top-level `catch` that converts any uncaught failure to a 500
response. -/
def handleRequest (env : PipelineEnv) (req : Request)
    (serverContext : Ctx) : Response :=
  match handleRequestAux env req serverContext with
  | .ok r => r
  | .error e => fatalErrorResponse e

end Yoga

namespace Yoga

/-- `CORSOptions` (`types.ts`): all fields optional; `none` models an absent
field. -/
structure CORSOptions where
  origin : Option (List String) := none
  methods : Option (List String) := none
  allowedHeaders : Option (List String) := none
  exposedHeaders : Option (List String) := none
  credentials : Option Bool := none
  maxAge : Option Nat := none

/-- `getCORSResponseHeaders` (`useCORS.ts` lines 19-95), with the options
factory already evaluated to its `CORSOptions` result.  Each step mirrors one
statement of the source, including JavaScript truthiness checks and the
unconditional `Vary` overwrite after header reflection. -/
def getCORSResponseHeaders (req : Request) (corsOptions : CORSOptions) :
    List (String × String) :=
  let currentOrigin := req.getHeader "origin"
  let headers : List (String × String) := []
  let headers := setHeader headers "Access-Control-Allow-Origin" "*"
  let headers :=
    if strTruthy currentOrigin then
      if strTruthy (req.getHeader "cookies") then
        setHeader headers "Access-Control-Allow-Origin" (currentOrigin.getD "")
      else headers
    else headers
  let headers :=
    match currentOrigin, corsOptions.origin with
    | some o, some allow =>
        if !allow.isEmpty && !allow.contains o && !allow.contains "*" then
          setHeader headers "Access-Control-Allow-Origin" "null"
        else headers
    | _, _ => headers
  let headers :=
    if getHeader headers "Access-Control-Allow-Origin" ≠ some "*" then
      setHeader headers "Vary" "Origin"
    else headers
  let headers :=
    if (match corsOptions.methods with
        | some ms => !ms.isEmpty
        | none => false) then
      setHeader headers "Access-Control-Allow-Methods"
        (String.intercalate ", " (corsOptions.methods.getD []))
    else
      match req.getHeader "access-control-request-method" with
      | some m =>
          if m ≠ "" then
            setHeader headers "Access-Control-Allow-Methods" m
          else headers
      | none => headers
  let headers :=
    if (match corsOptions.allowedHeaders with
        | some hs => !hs.isEmpty
        | none => false) then
      setHeader headers "Access-Control-Allow-Headers"
        (String.intercalate ", " (corsOptions.allowedHeaders.getD []))
    else
      match req.getHeader "access-control-request-headers" with
      | some rh =>
          if rh ≠ "" then
            let headers := setHeader headers "Access-Control-Allow-Headers" rh
            let headers :=
              match getHeader headers "Vary" with
              | some v =>
                  if v ≠ "" then
                    setHeader headers "Vary"
                      (v ++ ", Access-Control-Request-Headers")
                  else headers
              | none => headers
            setHeader headers "Vary" "Access-Control-Request-Headers"
          else headers
      | none => headers
  let headers :=
    match corsOptions.credentials with
    | some b =>
        if b then
          setHeader headers "Access-Control-Allow-Credentials" "true"
        else headers
    | none =>
        if getHeader headers "Access-Control-Allow-Origin" ≠ some "*" then
          setHeader headers "Access-Control-Allow-Credentials" "true"
        else headers
  let headers :=
    match corsOptions.exposedHeaders with
    | some ex =>
        setHeader headers "Access-Control-Expose-Headers"
          (String.intercalate ", " ex)
    | none => headers
  let headers :=
    match corsOptions.maxAge with
    | some n =>
        if n ≠ 0 then
          setHeader headers "Access-Control-Max-Age" (toString n)
        else headers
    | none => headers
  setHeader headers "Server" "GraphQL Yoga"

/-- The `onRequest` hook of `useCORS` (`useCORS.ts` lines 112-138): an
`OPTIONS` request is answered directly with status 204 and the computed
headers; any other request registers an `onRequestDone` hook (which stamps
the same headers onto the eventual response — an effect on the response
object that this observer model does not track). -/
def useCORSOnRequest (corsOptions : CORSOptions) : OnRequestHook := fun req =>
  if jsToUpperCase req.method = "OPTIONS" then
    .ok { response := some
            { status := 204
              statusText := ""
              headers := getCORSResponseHeaders req corsOptions
              body := none }
          onRequestDone := none }
  else
    .ok { response := none
          onRequestDone := some (fun _ => .ok ()) }

end Yoga

namespace Yoga

/-- JavaScript `x === s` where `x` resulted from destructuring a JSON value:
true exactly when the value is present and is the string `s`. -/
def isStrEq (j : Option Json) (s : String) : Bool :=
  match j with
  | some (Json.str t) => t = s
  | _ => false

/-- The liveness response of `useHealthCheck`: status 200, the fixed body
`{ "message": "alive" }` and the `x-yoga-id` identity header. -/
def healthResponse (id : String) : Response :=
  { status := 200
    statusText := ""
    headers := [("Content-Type", "application/json"), ("x-yoga-id", id)]
    body := some (Json.obj [("message", Json.str "alive")]) }

/-- The readiness response of `useHealthCheck`: status 200 and the body
`{ "message": "ready" }`. -/
def readyResponse : Response :=
  { status := 200
    statusText := ""
    headers := [("Content-Type", "application/json")]
    body := some (Json.obj [("message", Json.str "ready")]) }

/-- The `onRequest` hook of `useHealthCheck`, instrumented with the list of
URLs passed to the injected `fetch` capability.  Mirrors the source: the
request path is the URL up to `?`; a `/health` suffix answers the liveness
response directly; a `/readiness` suffix fetches the same URL with
`/readiness` replaced by `/health`, reads its JSON body, and answers the
ready response exactly when status, `x-yoga-id` header and `message` field
all match — otherwise it throws. -/
def healthCheckRun (id : String)
    (fetchFn : String → Except JsError Response) (req : Request) :
    Except JsError HookOutcome × List String :=
  let requestPath := pathBeforeQuery req.url
  if strEndsWith requestPath "/health" then
    (.ok { response := some (healthResponse id), onRequestDone := none }, [])
  else if strEndsWith requestPath "/readiness" then
    let target := replaceFirst req.url "/readiness" "/health"
    (match fetchFn target with
     | .error e => .error e
     | .ok readinessResponse =>
        match readinessResponse.body with
        | none => .error (JsError.other "Unexpected end of JSON input")
        | some j =>
            if readinessResponse.status == 200 &&
               getHeader readinessResponse.headers "x-yoga-id" == some id &&
               isStrEq (jsonObjGet j "message") "alive" then
              .ok { response := some readyResponse, onRequestDone := none }
            else
              .error (JsError.other
                ("Readiness check failed with status " ++
                  toString readinessResponse.status)),
     [target])
  else
    (.ok { response := none, onRequestDone := none }, [])

/-- The `onRequest` hook of `useHealthCheck` (`useHealthCheck.ts`), forgetting
the fetch-call instrumentation. -/
def healthCheckOnRequest (id : String)
    (fetchFn : String → Except JsError Response) : OnRequestHook :=
  fun req => (healthCheckRun id fetchFn req).1

end Yoga

namespace Yoga

/-- Modelled from the spec: the resource limits of the multipart upload
decoder (§4.3).  The decoder itself
(`packages/common/src/plugins/requestParser/POSTMultipart.ts` and the
busboy-backed decode) is not under `src/`; this model follows the spec's
words. -/
structure MultipartLimits where
  fileSize : Nat
  files : Nat
  fieldSize : Nat
  headerSize : Nat
deriving Repr, DecidableEq

/-- Modelled from the spec: which configurable multipart resource limit was
exceeded. -/
inductive LimitKind where
  | fileSize
  | files
  | fieldSize
  | headerSize
deriving Repr, DecidableEq

/-- Modelled from the spec: decoder failures — a `PayloadTooLargeError`
identifying the exceeded limit, or a `RequestParseError` for an
unresolvable map path / missing required field. -/
inductive MultipartError where
  | payloadTooLarge (limit : LimitKind)
  | requestParseError (message : String)
deriving Repr, DecidableEq

/-- Modelled from the spec: the body of one multipart part — a non-file
field (its JSON content together with its wire size in bytes) or a binary
file part streamed as chunks of bytes. -/
inductive PartBody where
  | field (content : Json) (size : Nat)
  | file (chunks : List (List Nat))
deriving Repr

/-- Modelled from the spec: one multipart part in arrival order. -/
structure Part where
  name : String
  headerBytes : Nat
  body : PartBody
deriving Repr

/-- Modelled from the spec: buffer a file part chunk by chunk, checking the
cumulative size against the `fileSize` limit before buffering each chunk's
bytes — the decode aborts as soon as the limit is crossed. -/
def bufferFile (fileSizeLimit : Nat) : Nat → List (List Nat) → List Nat →
    Except MultipartError (List Nat)
  | _, [], acc => .ok acc
  | size, c :: cs, acc =>
      if size + c.length > fileSizeLimit then
        .error (.payloadTooLarge .fileSize)
      else
        bufferFile fileSizeLimit (size + c.length) cs (acc ++ c)

/-- Modelled from the spec: the decoder state while streaming parts —
number of binary parts seen, cumulative header bytes, the buffered
`operations` and `map` fields, and the buffered binary parts keyed by part
name. -/
structure DecodeState where
  filesSeen : Nat := 0
  headerBytes : Nat := 0
  operations : Option Json := none
  mapField : Option Json := none
  fileParts : List (String × List Nat) := []

/-- Modelled from the spec: decode one part, enforcing the `headerSize`,
`fieldSize` and `files` limits before buffering anything of the part, and
the `fileSize` limit incrementally while buffering a file part. -/
def decodePart (limits : MultipartLimits) (st : DecodeState) (p : Part) :
    Except MultipartError DecodeState :=
  if st.headerBytes + p.headerBytes > limits.headerSize then
    .error (.payloadTooLarge .headerSize)
  else
    match p.body with
    | .field content size =>
        if size > limits.fieldSize then
          .error (.payloadTooLarge .fieldSize)
        else if p.name = "operations" then
          .ok { st with headerBytes := st.headerBytes + p.headerBytes
                        operations := some content }
        else if p.name = "map" then
          .ok { st with headerBytes := st.headerBytes + p.headerBytes
                        mapField := some content }
        else
          .ok { st with headerBytes := st.headerBytes + p.headerBytes }
    | .file chunks =>
        if st.filesSeen + 1 > limits.files then
          .error (.payloadTooLarge .files)
        else
          match bufferFile limits.fileSize 0 chunks [] with
          | .error e => .error e
          | .ok bytes =>
              .ok { st with headerBytes := st.headerBytes + p.headerBytes
                            filesSeen := st.filesSeen + 1
                            fileParts := st.fileParts ++ [(p.name, bytes)] }

/-- Modelled from the spec: stream-decode the parts in arrival order,
aborting at the first limit violation. -/
def decodeParts (limits : MultipartLimits) (st : DecodeState) :
    List Part → Except MultipartError DecodeState
  | [] => .ok st
  | p :: ps =>
      match decodePart limits st p with
      | .error e => .error e
      | .ok st' => decodeParts limits st' ps

/-- Modelled from the spec: the opaque `UploadRef` bound into `variables`,
rendered here as a tagged JSON object wrapping the file's bytes. -/
def uploadRef (bytes : List Nat) : Json :=
  Json.obj [("upload", Json.arr (bytes.map (fun b => Json.num (Int.ofNat b))))]

/-- Modelled from the spec: set the value at a dotted/indexed path through
nested objects and lists; `none` when the path references a non-existent
location. -/
def jsonSetPath : Json → List String → Json → Option Json
  | _, [], v => some v
  | Json.obj fields, seg :: rest, v =>
      match fields.find? (fun q => q.1 = seg) with
      | some (_, old) =>
          match jsonSetPath old rest v with
          | some new =>
              some (Json.obj
                (fields.map (fun q => if q.1 = seg then (seg, new) else q)))
          | none => none
      | none => none
  | Json.arr items, seg :: rest, v =>
      match seg.toNat? with
      | some i =>
          match items.get? i with
          | some old =>
              match jsonSetPath old rest v with
              | some new => some (Json.arr (items.set i new))
              | none => none
          | none => none
      | none => none
  | _, _ :: _, _ => none

/-- Modelled from the spec: bind one map entry — a JSON-pointer-style path
string — to the upload for the given bytes. -/
def bindOne (ops : Json) (bytes : List Nat) : Json → Option Json
  | Json.str path => jsonSetPath ops (jsSplit path '.') (uploadRef bytes)
  | _ => none

/-- Modelled from the spec: for one `map` key, bind the corresponding binary
part at every declared path. -/
def bindKey (st : DecodeState) (ops : Json) (key : String)
    (paths : List Json) : Option Json :=
  match st.fileParts.find? (fun q => q.1 = key) with
  | some (_, bytes) => paths.foldlM (fun acc p => bindOne acc bytes p) ops
  | none => none

/-- Modelled from the spec: after all parts are streamed, require the
`operations` and `map` fields, require every binary part to be referenced by
`map`, bind every upload at its declared paths, and read the ParamBag fields
out of the resulting `operations` object. -/
def finalizeMultipart (st : DecodeState) : Except MultipartError GraphQLParams :=
  match st.operations, st.mapField with
  | some ops, some (Json.obj mapEntries) =>
      if st.fileParts.all (fun fp => mapEntries.any (fun e => e.1 = fp.1)) then
        match mapEntries.foldlM
            (fun acc entry =>
              match entry.2 with
              | Json.arr paths => bindKey st acc entry.1 paths
              | _ => none) ops with
        | some bound =>
            .ok { operationName :=
                    match jsonObjGet bound "operationName" with
                    | some (Json.str s) => some s
                    | _ => none
                  query :=
                    match jsonObjGet bound "query" with
                    | some (Json.str s) => some s
                    | _ => none
                  «variables» := jsonObjGet bound "variables"
                  extensions := jsonObjGet bound "extensions" }
        | none => .error (.requestParseError "Unresolvable multipart map path")
      else
        .error (.requestParseError "File part without corresponding map key")
  | _, _ =>
      .error (.requestParseError "Missing multipart operations or map field")

/-- Modelled from the spec: the whole multipart decode — stream the parts
under the limits, then finalize into a ParamBag. -/
def decodeMultipart (limits : MultipartLimits) (parts : List Part) :
    Except MultipartError GraphQLParams :=
  match decodeParts limits {} parts with
  | .error e => .error e
  | .ok st => finalizeMultipart st

/-- Total header bytes across a list of parts. -/
def partHeaderSum (parts : List Part) : Nat :=
  (parts.map (·.headerBytes)).sum

/-- Whether a part is a binary file part. -/
def isFilePart (p : Part) : Bool :=
  match p.body with
  | .file _ => true
  | _ => false

/-- Number of binary file parts. -/
def fileCount (parts : List Part) : Nat :=
  (parts.filter isFilePart).length

/-- The wire size of a non-file field part. -/
def partFieldSize (p : Part) : Option Nat :=
  match p.body with
  | .field _ n => some n
  | _ => none

/-- Total byte count of a file part's chunks. -/
def partFileBytes (p : Part) : Nat :=
  match p.body with
  | .file cs => (cs.map List.length).sum
  | _ => 0

/-- The input genuinely exceeds the given limit. -/
def exceededKind (limits : MultipartLimits) (parts : List Part) :
    LimitKind → Prop
  | .headerSize => partHeaderSum parts > limits.headerSize
  | .files => fileCount parts > limits.files
  | .fieldSize => ∃ p ∈ parts, ∃ n, partFieldSize p = some n ∧ n > limits.fieldSize
  | .fileSize => ∃ p ∈ parts, partFileBytes p > limits.fileSize

end Yoga

namespace Yoga

/-- Prefix a list of events onto an early-phase result. -/
def prependEvs (l : List Ev) :
    Except JsError (Option Response × List (Nat × DoneHook) × List Ev) →
    Except JsError (Option Response × List (Nat × DoneHook) × List Ev)
  | .ok (o, a, evs) => .ok (o, a, l ++ evs)
  | .error e => .error e

/-- The done hooks registered by a sequence of hook outcomes, paired with
their hook numbers starting at `i`, in registration order. -/
def regsFrom (i : Nat) : List HookOutcome → List (Nat × DoneHook)
  | [] => []
  | o :: rest =>
      match o.onRequestDone with
      | some d => (i, d) :: regsFrom (i + 1) rest
      | none => regsFrom (i + 1) rest

/-- The `hookStart` events of `n` consecutive hooks starting at number `i`. -/
def startsFrom (i : Nat) : Nat → List Ev
  | 0 => []
  | n + 1 => Ev.hookStart i :: startsFrom (i + 1) n

theorem prependEvs_nil (x) : prependEvs [] x = x := by
  cases x with
  | error e => rfl
  | ok v =>
      rcases v with ⟨o, a, evs⟩
      simp [prependEvs]

theorem prependEvs_comp (a b : List Ev) (x) :
    prependEvs a (prependEvs b x) = prependEvs (a ++ b) x := by
  cases x with
  | error e => rfl
  | ok v =>
      rcases v with ⟨o, aa, evs⟩
      simp [prependEvs]

theorem regsFrom_append (l₁ l₂ : List HookOutcome) :
    ∀ i, regsFrom i (l₁ ++ l₂) = regsFrom i l₁ ++ regsFrom (i + l₁.length) l₂ := by
  induction l₁ with
  | nil => intro i; simp [regsFrom]
  | cons o rest ih =>
      intro i
      have harith : i + (rest.length + 1) = i + 1 + rest.length := by omega
      cases h : o.onRequestDone with
      | some d =>
          simp only [List.cons_append, regsFrom, h, List.length_cons,
            List.append_eq]
          rw [harith, ← ih (i + 1)]
      | none =>
          simp only [List.cons_append, regsFrom, h, List.length_cons,
            List.append_eq]
          rw [harith, ← ih (i + 1)]

theorem regsFrom_fst_ge (l : List HookOutcome) :
    ∀ i, ∀ q ∈ regsFrom i l, i ≤ q.1 := by
  induction l with
  | nil => intro i q hq; simp [regsFrom] at hq
  | cons o rest ih =>
      intro i q hq
      cases h : o.onRequestDone with
      | some d =>
          rw [regsFrom, h] at hq
          rcases List.mem_cons.mp hq with h1 | h2
          · subst h1; exact le_refl i
          · exact le_trans (Nat.le_succ i) (ih (i + 1) q h2)
      | none =>
          rw [regsFrom, h] at hq
          exact le_trans (Nat.le_succ i) (ih (i + 1) q hq)

theorem regsFrom_chain (l : List HookOutcome) :
    ∀ i, List.Chain' (· < ·) ((regsFrom i l).map Prod.fst) := by
  induction l with
  | nil => intro i; simp [regsFrom]
  | cons o rest ih =>
      intro i
      cases h : o.onRequestDone with
      | some d =>
          rw [regsFrom, h]
          rw [List.map_cons, List.chain'_cons']
          refine ⟨?_, ih (i + 1)⟩
          intro b hb
          have hmem : b ∈ (regsFrom (i + 1) rest).map Prod.fst :=
            List.mem_of_mem_head? hb
          rcases List.mem_map.mp hmem with ⟨q, hq, rfl⟩
          have := regsFrom_fst_ge rest (i + 1) q hq
          omega
      | none =>
          rw [regsFrom, h]
          exact ih (i + 1)

theorem mem_startsFrom (k : Nat) :
    ∀ n i, Ev.hookStart k ∈ startsFrom i n ↔ i ≤ k ∧ k < i + n := by
  intro n
  induction n with
  | zero =>
      intro i
      constructor
      · intro h; simp [startsFrom] at h
      · intro h; omega
  | succ m ih =>
      intro i
      rw [startsFrom, List.mem_cons]
      constructor
      · rintro (h | h)
        · injection h with h; omega
        · have := (ih (i + 1)).mp h; omega
      · intro h
        by_cases hk : k = i
        · subst hk; exact Or.inl rfl
        · exact Or.inr ((ih (i + 1)).mpr (by omega))

theorem startsFrom_snoc (n : Nat) :
    ∀ i, startsFrom i (n + 1) = startsFrom i n ++ [Ev.hookStart (i + n)] := by
  induction n with
  | zero => intro i; simp [startsFrom]
  | succ m ih =>
      intro i
      have harith : i + 1 + m = i + (m + 1) := by omega
      rw [startsFrom, ih (i + 1), harith]
      rw [startsFrom]
      simp

theorem runDoneHooks_ok (r : Response) :
    ∀ (l : List (Nat × DoneHook)), (∀ q ∈ l, q.2 r = .ok ()) →
    runDoneHooks l r = .ok (l.map (fun q => Ev.doneRun q.1 r)) := by
  intro l
  induction l with
  | nil => intro _; rfl
  | cons q rest ih =>
      intro h
      rcases q with ⟨i, d⟩
      have hd : d r = .ok () := h (i, d) (List.mem_cons_self _ _)
      have hrest := ih (fun q hq => h q (List.mem_cons_of_mem _ hq))
      simp [runDoneHooks, hd, hrest]

theorem earlyPhase_cons_none (h : OnRequestHook) (hs : List OnRequestHook)
    (i : Nat) (req : Request) (acc : List (Nat × DoneHook)) (o : HookOutcome)
    (hrun : h req = .ok o) (hresp : o.response = none) :
    earlyPhase (h :: hs) i req acc =
      prependEvs [Ev.hookStart i]
        (earlyPhase hs (i + 1) req (acc ++ regsFrom i [o])) := by
  cases hdone : o.onRequestDone with
  | some d =>
      simp only [earlyPhase, hrun, hresp, hdone, regsFrom]
      cases hrec : earlyPhase hs (i + 1) req (acc ++ [(i, d)]) with
      | error e => simp [hrec, prependEvs]
      | ok v =>
          rcases v with ⟨oo, aa, evs⟩
          simp [hrec, prependEvs]
  | none =>
      simp only [earlyPhase, hrun, hresp, hdone, regsFrom, List.append_nil]
      cases hrec : earlyPhase hs (i + 1) req acc with
      | error e => simp [hrec, prependEvs]
      | ok v =>
          rcases v with ⟨oo, aa, evs⟩
          simp [hrec, prependEvs]

theorem earlyPhase_skip (req : Request) :
    ∀ {pre : List OnRequestHook} {pouts : List HookOutcome},
    List.Forall₂ (fun h o => h req = .ok o ∧ o.response = none) pre pouts →
    ∀ tail i acc,
    earlyPhase (pre ++ tail) i req acc =
      prependEvs (startsFrom i pre.length)
        (earlyPhase tail (i + pre.length) req (acc ++ regsFrom i pouts)) := by
  intro pre pouts hpp
  induction hpp with
  | nil =>
      intro tail i acc
      simp [startsFrom, regsFrom, prependEvs_nil]
  | @cons h o pre' pouts' hho hpp ih =>
      intro tail i acc
      rw [List.cons_append,
        earlyPhase_cons_none h (pre' ++ tail) i req acc o hho.1 hho.2,
        ih tail (i + 1) (acc ++ regsFrom i [o])]
      rw [prependEvs_comp]
      have hstart : [Ev.hookStart i] ++ startsFrom (i + 1) pre'.length =
          startsFrom i (h :: pre').length := by
        simp [startsFrom]
      rw [hstart]
      have hregs : acc ++ regsFrom i [o] ++ regsFrom (i + 1) pouts' =
          acc ++ regsFrom i (o :: pouts') := by
        cases hdone : o.onRequestDone with
        | some d => simp [regsFrom, hdone]
        | none => simp [regsFrom, hdone]
      have harith : i + 1 + pre'.length = i + (h :: pre').length := by
        simp [List.length_cons]; omega
      rw [hregs, harith]

theorem earlyPhase_end (hEnd : OnRequestHook) (tail : List OnRequestHook)
    (i : Nat) (req : Request) (acc : List (Nat × DoneHook))
    (outEnd : HookOutcome) (r : Response)
    (hrun : hEnd req = .ok outEnd) (hresp : outEnd.response = some r)
    (hdones : ∀ q ∈ acc ++ regsFrom i [outEnd], q.2 r = .ok ()) :
    earlyPhase (hEnd :: tail) i req acc =
      .ok (some r, acc ++ regsFrom i [outEnd],
        Ev.hookStart i ::
          (acc ++ regsFrom i [outEnd]).map (fun q => Ev.doneRun q.1 r)) := by
  have hrdh := runDoneHooks_ok r (acc ++ regsFrom i [outEnd]) hdones
  cases hdone : outEnd.onRequestDone with
  | some d =>
      rw [regsFrom, hdone] at hrdh ⊢
      simp only [regsFrom] at hrdh ⊢
      simp only [earlyPhase, hrun, hresp, hdone]
      simp [hrdh]
  | none =>
      rw [regsFrom, hdone] at hrdh ⊢
      simp only [regsFrom, List.append_nil] at hrdh ⊢
      simp only [earlyPhase, hrun, hresp, hdone]
      simp [hrdh]

theorem earlyPhase_skip_error (req : Request) :
    ∀ {pre : List OnRequestHook} {pouts : List HookOutcome},
    List.Forall₂ (fun h o => h req = .ok o ∧ o.response = none) pre pouts →
    ∀ (hEnd : OnRequestHook) tail i acc e,
    hEnd req = .error e →
    earlyPhase (pre ++ hEnd :: tail) i req acc = .error e := by
  intro pre pouts hpp hEnd tail i acc e herr
  rw [earlyPhase_skip req hpp (hEnd :: tail) i acc]
  simp only [earlyPhase, herr]
  rfl

end Yoga

namespace Yoga

theorem parseSelectPhase_run (req : Request) :
    ∀ {hs : List OnRequestParseHook} {pouts : List ParseOutcome},
    List.Forall₂ (fun h o => ∀ cur, h req cur = .ok o) hs pouts →
    ∀ cur acc,
    parseSelectPhase hs req cur acc =
      .ok (pouts.foldl (fun c o => o.setParser.getD c) cur,
        acc ++ pouts.filterMap (·.onRequestParseDone)) := by
  intro hs pouts hpp
  induction hpp with
  | nil => intro cur acc; simp [parseSelectPhase]
  | @cons h o hs' pouts' hho hpp ih =>
      intro cur acc
      simp only [parseSelectPhase, hho cur]
      rw [ih]
      cases hpd : o.onRequestParseDone with
      | some d => simp [List.filterMap_cons, hpd, List.foldl_cons]
      | none => simp [List.filterMap_cons, hpd, List.foldl_cons]

theorem foldl_setParser_none (post : List ParseOutcome)
    (h : ∀ o ∈ post, o.setParser = none) :
    ∀ c : RequestParser, post.foldl (fun c o => o.setParser.getD c) c = c := by
  induction post with
  | nil => intro c; rfl
  | cons o rest ih =>
      intro c
      have h0 : o.setParser = none := h o (List.mem_cons_self _ _)
      rw [List.foldl_cons, h0]
      exact ih (fun o ho => h o (List.mem_cons_of_mem _ ho)) _

theorem ctxGet_append (a b : Ctx) (k : String) :
    ctxGet (a ++ b) k = ((ctxGet b k).or (ctxGet a k)) := by
  unfold ctxGet
  rw [List.reverse_append, List.find?_append]
  cases h : b.reverse.find? (fun p => p.1 = k) with
  | some v => simp [h]
  | none => simp [h]

theorem ctxGet_single (k k' : String) (v : CtxVal) :
    ctxGet [(k', v)] k = if k' = k then some v else none := by
  unfold ctxGet
  by_cases h : k' = k
  · simp [List.find?, h]
  · simp [List.find?, h]

/-- C10: in `initialContext` (`{ request, ...params, ...serverContext }`),
later spread sources overwrite same-named keys of earlier ones: a key of
`serverContext` always wins; absent that, a present field of the parsed
params wins; absent both, only the `request` key is populated.  In
particular a `serverContext` entry named `query` (or `variables`,
`operationName`, `extensions`) silently overrides the parser-produced
value. -/
theorem initialContext_precedence (req : Request) (params : GraphQLParams)
    (sc : Ctx) (k : String) :
    (∀ v, ctxGet sc k = some v →
      ctxGet (initialContext req params sc) k = some v) ∧
    (ctxGet sc k = none → ∀ v, ctxGet params.fields k = some v →
      ctxGet (initialContext req params sc) k = some v) ∧
    (ctxGet sc k = none → ctxGet params.fields k = none →
      ctxGet (initialContext req params sc) k =
        if k = "request" then some (CtxVal.request req) else none) := by
  have hsplit : initialContext req params sc =
      [("request", CtxVal.request req)] ++ (params.fields ++ sc) := rfl
  refine ⟨?_, ?_, ?_⟩
  · intro v hv
    rw [hsplit, ctxGet_append, ctxGet_append, hv]
    rfl
  · intro hnone v hv
    rw [hsplit, ctxGet_append, ctxGet_append, hnone, hv]
    rfl
  · intro h1 h2
    rw [hsplit, ctxGet_append, ctxGet_append, h1, h2, ctxGet_single]
    by_cases h : k = "request"
    · simp [h]
    · simp only [h, if_false]
      rw [if_neg (fun hh => h hh.symm)]
      rfl

/-- Witness for C10 at a concrete input: a `serverContext` carrying a
`query` key overrides the query produced by the request parser. -/
theorem initialContext_precedence_witness :
    ctxGet (initialContext { method := "GET", url := "http://yoga/graphql" }
        { query := some "fromParser" }
        [("query", CtxVal.json (Json.str "override"))]) "query" =
      some (CtxVal.json (Json.str "override")) :=
  (initialContext_precedence { method := "GET", url := "http://yoga/graphql" }
    { query := some "fromParser" }
    [("query", CtxVal.json (Json.str "override"))] "query").1 _ rfl

end Yoga

namespace Yoga

/-- A plain GET request used by concrete instantiations. -/
def reqPlain : Request := { method := "GET", url := "http://yoga/graphql" }

/-- An execution engine that renders a default response, used by concrete
instantiations where execution is irrelevant. -/
def engine0 : Request → Ctx → Except JsError Response := fun _ _ => .ok {}

/-- C2: in the parser-selection phase, `setRequestParser` replaces the active
parser outright — when several hooks call it, the one latest in registration
order installs the parser handed to the parse step (never a merge) — and
when no hook calls it, the default no-op parser remains active and yields
the empty ParamBag. -/
theorem setRequestParser_last_wins
    (req : Request) (hs : List OnRequestParseHook) (pouts : List ParseOutcome)
    (hpp : List.Forall₂ (fun h o => ∀ cur, h req cur = .ok o) hs pouts) :
    (∀ preOuts midOuts postOuts o₁ oStar p₁ pStar,
      pouts = preOuts ++ o₁ :: midOuts ++ oStar :: postOuts →
      o₁.setParser = some p₁ →
      oStar.setParser = some pStar →
      (∀ o ∈ postOuts, o.setParser = none) →
      parseSelectPhase hs req defaultRequestParser [] =
        .ok (pStar, pouts.filterMap (·.onRequestParseDone))) ∧
    ((∀ o ∈ pouts, o.setParser = none) →
      parseSelectPhase hs req defaultRequestParser [] =
        .ok (defaultRequestParser, pouts.filterMap (·.onRequestParseDone)) ∧
      defaultRequestParser req = .ok emptyParams ∧
      emptyParams.query = none ∧ emptyParams.operationName = none ∧
      emptyParams.«variables» = none ∧ emptyParams.extensions = none) := by
  constructor
  · intro preOuts midOuts postOuts o₁ oStar p₁ pStar hdec h₁ hStar hpost
    rw [parseSelectPhase_run req hpp defaultRequestParser []]
    rw [List.nil_append]
    subst hdec
    rw [List.foldl_append, List.foldl_cons, List.foldl_append, List.foldl_cons]
    rw [hStar]
    rw [foldl_setParser_none postOuts hpost]
    rfl
  · intro hnone
    refine ⟨?_, rfl, rfl, rfl, rfl, rfl⟩
    rw [parseSelectPhase_run req hpp defaultRequestParser []]
    rw [List.nil_append, foldl_setParser_none pouts hnone]

/-- One of two concrete parsers competing in the C2 witness. -/
def parserA : RequestParser := fun _ => .ok { query := some "a" }

/-- The other concrete parser competing in the C2 witness. -/
def parserB : RequestParser := fun _ => .ok { query := some "b" }

/-- Parse-hook outcome installing `parserA`. -/
def outSetA : ParseOutcome := { setParser := some parserA }

/-- Parse-hook outcome installing `parserB`. -/
def outSetB : ParseOutcome := { setParser := some parserB }

/-- Parse hook that always installs `parserA`. -/
def hookSetA : OnRequestParseHook := fun _ _ => .ok outSetA

/-- Parse hook that always installs `parserB`. -/
def hookSetB : OnRequestParseHook := fun _ _ => .ok outSetB

/-- Witness for C2: two hooks both call `setRequestParser`; the later one's
parser is the one selected for the parse step. -/
theorem setRequestParser_last_wins_witness :
    parseSelectPhase [hookSetA, hookSetB] reqPlain defaultRequestParser [] =
      .ok (parserB, []) := by
  have hpp : List.Forall₂ (fun h o => ∀ cur, h reqPlain cur = .ok o)
      [hookSetA, hookSetB] [outSetA, outSetB] :=
    List.Forall₂.cons (fun _ => rfl)
      (List.Forall₂.cons (fun _ => rfl) List.Forall₂.nil)
  exact (setRequestParser_last_wins reqPlain _ _ hpp).1 [] [] [] outSetA outSetB
    parserA parserB rfl rfl rfl (fun o ho => absurd ho (List.not_mem_nil o))

/-- C3: `handleRequest` never rejects — the single top-level `catch` returns
whatever the `try` body produced, and converts any uncaught failure into a
response with status 500 whose body is a JSON object with a one-element
`errors` list holding the raw error when it is a `GraphQLError` and
otherwise an object with only the error's message. -/
theorem handleRequest_never_throws (env : PipelineEnv) (req : Request)
    (sc : Ctx) :
    (∀ r, handleRequestAux env req sc = .ok r →
      handleRequest env req sc = r) ∧
    (∀ e, handleRequestAux env req sc = .error e →
      handleRequest env req sc =
        { status := 500
          statusText := "Internal Server Error"
          headers := []
          body := some (Json.obj [("errors", Json.arr [errorJson e])]) } ∧
      (∀ m, e = .other m →
        errorJson e = Json.obj [("message", Json.str m)]) ∧
      (∀ j, e = .graphQL j → errorJson e = j)) := by
  constructor
  · intro r h
    simp [handleRequest, h]
  · intro e h
    refine ⟨?_, ?_, ?_⟩
    · simp [handleRequest, h, fatalErrorResponse]
    · intro m hm; subst hm; rfl
    · intro j hj; subst hj; rfl

/-- An `onRequest` hook that throws, used by the C3 witness. -/
def boomHook : OnRequestHook := fun _ => .error (.other "boom")

/-- A pipeline whose first hook throws, used by the C3 witness. -/
def envBoom : PipelineEnv := ⟨[boomHook], [], engine0⟩

/-- Witness for C3: a hook that throws is caught and rendered as the
single-error 500 response with only the message string. -/
theorem handleRequest_never_throws_witness :
    handleRequest envBoom reqPlain [] =
      { status := 500
        statusText := "Internal Server Error"
        headers := []
        body := some (Json.obj [("errors",
          Json.arr [Json.obj [("message", Json.str "boom")]])]) } := by
  have haux : handleRequestAux envBoom reqPlain [] = .error (.other "boom") := rfl
  have h :=
    ((handleRequest_never_throws envBoom reqPlain []).2 (.other "boom") haux).1
  simpa [errorJson] using h

end Yoga

namespace Yoga

/-- C1: if the `onRequest` hook at position `pre.length` ends the response
(`endResponse`) while every earlier hook ran without ending it, then the
early-intercept loop returns that response, the observable trace starts
exactly hooks `0..pre.length` (no later hook executes), and then runs —
exactly once each, in registration order, against the produced response —
the done hooks registered by the hooks that ran, including the one returned
by the very hook that called `endResponse`; finally `handleRequest` returns
that response whatever the parse hooks and engine are. -/
theorem onRequest_endResponse_short_circuit
    (req : Request) (r : Response)
    (pre rest : List OnRequestHook) (pouts : List HookOutcome)
    (hEnd : OnRequestHook) (outEnd : HookOutcome)
    (hpre : List.Forall₂ (fun h o => h req = .ok o ∧ o.response = none) pre pouts)
    (hrun : hEnd req = .ok outEnd)
    (hresp : outEnd.response = some r)
    (hdones : ∀ q ∈ regsFrom 0 (pouts ++ [outEnd]), q.2 r = .ok ()) :
    earlyPhase (pre ++ hEnd :: rest) 0 req [] =
      .ok (some r, regsFrom 0 (pouts ++ [outEnd]),
        startsFrom 0 (pre.length + 1) ++
          (regsFrom 0 (pouts ++ [outEnd])).map (fun q => Ev.doneRun q.1 r)) ∧
    (∀ k, Ev.hookStart k ∈
        startsFrom 0 (pre.length + 1) ++
          (regsFrom 0 (pouts ++ [outEnd])).map (fun q => Ev.doneRun q.1 r) ↔
      k ≤ pre.length) ∧
    List.Chain' (· < ·) ((regsFrom 0 (pouts ++ [outEnd])).map Prod.fst) ∧
    (∀ d, outEnd.onRequestDone = some d →
      (pre.length, d) ∈ regsFrom 0 (pouts ++ [outEnd])) ∧
    (∀ parseHooks engine serverContext,
      handleRequest ⟨pre ++ hEnd :: rest, parseHooks, engine⟩ req
        serverContext = r) := by
  have hlen : pre.length = pouts.length := hpre.length_eq
  have hra : regsFrom 0 (pouts ++ [outEnd]) =
      regsFrom 0 pouts ++ regsFrom pre.length [outEnd] := by
    rw [regsFrom_append pouts [outEnd] 0, Nat.zero_add, hlen]
  have hdones' : ∀ q ∈ ([] : List (Nat × DoneHook)) ++ regsFrom 0 pouts ++
      regsFrom (0 + pre.length) [outEnd], q.2 r = .ok () := by
    intro q hq
    apply hdones
    rw [hra]
    simpa using hq
  have hmain : earlyPhase (pre ++ hEnd :: rest) 0 req [] =
      .ok (some r, regsFrom 0 (pouts ++ [outEnd]),
        startsFrom 0 (pre.length + 1) ++
          (regsFrom 0 (pouts ++ [outEnd])).map (fun q => Ev.doneRun q.1 r)) := by
    rw [earlyPhase_skip req hpre (hEnd :: rest) 0 []]
    rw [earlyPhase_end hEnd rest (0 + pre.length) req
      ([] ++ regsFrom 0 pouts) outEnd r hrun hresp
      (by simpa using hdones')]
    have hacc : ([] : List (Nat × DoneHook)) ++ regsFrom 0 pouts ++
        regsFrom (0 + pre.length) [outEnd] = regsFrom 0 (pouts ++ [outEnd]) := by
      rw [hra]; simp
    rw [hacc]
    simp only [prependEvs]
    have hstarts : startsFrom 0 pre.length ++
        (Ev.hookStart (0 + pre.length) ::
          (regsFrom 0 (pouts ++ [outEnd])).map (fun q => Ev.doneRun q.1 r)) =
        startsFrom 0 (pre.length + 1) ++
          (regsFrom 0 (pouts ++ [outEnd])).map (fun q => Ev.doneRun q.1 r) := by
      rw [startsFrom_snoc pre.length 0]
      simp
    rw [hstarts]
  refine ⟨hmain, ?_, ?_, ?_, ?_⟩
  · intro k
    rw [List.mem_append]
    constructor
    · rintro (h | h)
      · have := (mem_startsFrom k (pre.length + 1) 0).mp h
        omega
      · exfalso
        rcases List.mem_map.mp h with ⟨q, _, hq⟩
        exact Ev.noConfusion hq
    · intro hk
      exact Or.inl ((mem_startsFrom k (pre.length + 1) 0).mpr (by omega))
  · exact regsFrom_chain _ 0
  · intro d hd
    rw [hra]
    apply List.mem_append_right
    simp [regsFrom, hd]
  · intro parseHooks engine serverContext
    simp [handleRequest, handleRequestAux, hmain]

/-- A done hook that succeeds silently, used by concrete instantiations. -/
def okDone : DoneHook := fun _ => .ok ()

/-- The response produced by the ending hook in the C1 witness. -/
def respC1 : Response := { status := 218, statusText := "observed" }

/-- Outcome of a pure-observer hook that registers a done hook. -/
def outObs : HookOutcome := { response := none, onRequestDone := some okDone }

/-- A pure-observer `onRequest` hook registering a done hook. -/
def obsHook : OnRequestHook := fun _ => .ok outObs

/-- Outcome of a hook that calls `endResponse` and registers a done hook. -/
def outEndC1 : HookOutcome :=
  { response := some respC1, onRequestDone := some okDone }

/-- An `onRequest` hook that calls `endResponse` and registers a done hook. -/
def endHookC1 : OnRequestHook := fun _ => .ok outEndC1

/-- Witness for C1: with one observer hook followed by an ending hook,
`handleRequest` returns the ended response. -/
theorem onRequest_endResponse_short_circuit_witness :
    handleRequest ⟨[obsHook] ++ endHookC1 :: [], [], engine0⟩ reqPlain [] =
      respC1 := by
  have hpre : List.Forall₂ (fun h o => h reqPlain = .ok o ∧ o.response = none)
      [obsHook] [outObs] :=
    List.Forall₂.cons ⟨rfl, rfl⟩ List.Forall₂.nil
  have hd : ∀ q ∈ regsFrom 0 ([outObs] ++ [outEndC1]), q.2 respC1 = .ok () := by
    intro q hq
    simp [regsFrom, outObs, outEndC1] at hq
    rcases hq with rfl | rfl <;> rfl
  exact (onRequest_endResponse_short_circuit reqPlain respC1 [obsHook] []
    [outObs] endHookC1 outEndC1 hpre rfl rfl hd).2.2.2.2 [] engine0 []

end Yoga

namespace Yoga

/-- The C4 preflight request: `OPTIONS` with `Origin: http://a.test` and no
credential (cookies) signal. -/
def reqCorsA : Request :=
  { method := "OPTIONS", url := "http://yoga/graphql",
    headers := [("origin", "http://a.test")] }

/-- Policy allow-listing the request's own origin. -/
def polOriginA : CORSOptions := { origin := some ["http://a.test"] }

/-- Policy allow-listing a different origin. -/
def polOriginB : CORSOptions := { origin := some ["http://b.test"] }

/-- C4 counterexample: with policy `{origin:["http://a.test"]}` the computed
`Access-Control-Allow-Origin` is `*`, not the echoed origin the claim
states — the code narrows to the request origin only when a `cookies`
header is present. -/
theorem cors_allowlisted_origin_not_echoed :
    getHeader (getCORSResponseHeaders reqCorsA polOriginA)
        "Access-Control-Allow-Origin" = some "*" ∧
    (some "*" : Option String) ≠ some "http://a.test" :=
  ⟨by decide, by decide⟩

/-- C4 amended: the preflight `OPTIONS` request with `Origin: http://a.test`
yields status 204 under both policies; with `{origin:["http://a.test"]}`
the allow-origin stays `*` (the origin is in the allow-list and no
credential signal narrows it), while with `{origin:["http://b.test"]}` it
is forced to `null` (with `Vary: Origin`). -/
theorem cors_preflight_status_and_origin :
    useCORSOnRequest polOriginA reqCorsA =
      .ok { response := some
              { status := 204, statusText := "",
                headers := getCORSResponseHeaders reqCorsA polOriginA,
                body := none }
            onRequestDone := none } ∧
    getHeader (getCORSResponseHeaders reqCorsA polOriginA)
      "Access-Control-Allow-Origin" = some "*" ∧
    useCORSOnRequest polOriginB reqCorsA =
      .ok { response := some
              { status := 204, statusText := "",
                headers := getCORSResponseHeaders reqCorsA polOriginB,
                body := none }
            onRequestDone := none } ∧
    getHeader (getCORSResponseHeaders reqCorsA polOriginB)
      "Access-Control-Allow-Origin" = some "null" ∧
    getHeader (getCORSResponseHeaders reqCorsA polOriginB) "Vary" =
      some "Origin" := by
  refine ⟨?_, by decide, ?_, by decide, by decide⟩
  · simp only [useCORSOnRequest]
    rw [if_pos (by decide)]
  · simp only [useCORSOnRequest]
    rw [if_pos (by decide)]

/-- The C5 failing input: a request whose allow-origin narrows away from `*`
(origin plus cookies) and which also carries
`Access-Control-Request-Headers` while the policy declares no
`allowedHeaders`, so header reflection applies. -/
def reqCorsVary : Request :=
  { method := "OPTIONS", url := "http://yoga/graphql",
    headers := [("origin", "http://a.test"), ("cookies", "sid=1"),
                ("access-control-request-headers", "x-custom-header")] }

/-- The empty CORS policy. -/
def polEmpty : CORSOptions := {}

/-- C5: at the failing input the resolved allow-origin is not `*`, yet the
reflection branch overwrites `Vary` to `Access-Control-Request-Headers`,
losing `Origin` — the append on the previous source line is dead code, so
the code contradicts its own evident intent (the spec flags this as a known
inconsistency). -/
theorem cors_vary_origin_clobbered :
    getHeader (getCORSResponseHeaders reqCorsVary polEmpty)
        "Access-Control-Allow-Origin" = some "http://a.test" ∧
    (some "http://a.test" : Option String) ≠ some "*" ∧
    getHeader (getCORSResponseHeaders reqCorsVary polEmpty) "Vary" =
      some "Access-Control-Request-Headers" ∧
    ¬ ("Origin".toList <:+: "Access-Control-Request-Headers".toList) := by
  refine ⟨by decide, by decide, by decide, by decide⟩

/-- A request parser that throws a parse failure, as the GET strategy does on
malformed query-string JSON. -/
def throwingParserC6 : RequestParser :=
  fun _ => .error (.other "Unexpected token in JSON")

/-- A parse hook installing the throwing parser. -/
def parseHookC6 : OnRequestParseHook :=
  fun _ _ => .ok { setParser := some throwingParserC6 }

/-- Pipeline whose selected request parser throws. -/
def envParseErr : PipelineEnv := ⟨[], [parseHookC6], engine0⟩

/-- C6 counterexample: when the active request parser fails, the response has
status 500 — not an HTTP 4xx status as the claim states — because the only
handler is the top-level catch, which always uses 500. -/
theorem parse_error_not_4xx :
    (handleRequest envParseErr reqPlain []).status = 500 ∧
    ¬(400 ≤ (handleRequest envParseErr reqPlain []).status ∧
      (handleRequest envParseErr reqPlain []).status ≤ 499) := by
  have h : handleRequest envParseErr reqPlain [] =
      fatalErrorResponse (.other "Unexpected token in JSON") := rfl
  rw [h]
  refine ⟨rfl, ?_⟩
  intro hc
  simp only [fatalErrorResponse] at hc
  omega

/-- C6 amended: whenever the active request parser fails (with a parse error
or anything else), the client receives the fatal 500 response whose body is
a GraphQL-shaped one-element error list. -/
theorem parse_error_yields_500 (env : PipelineEnv) (req : Request) (sc : Ctx)
    (requestParser : RequestParser) (pd : List ParseDoneHook) (e : JsError)
    (dh : List (Nat × DoneHook)) (evs : List Ev)
    (h1 : earlyPhase env.onRequestHooks 0 req [] = .ok (none, dh, evs))
    (h2 : parseSelectPhase env.onRequestParseHooks req defaultRequestParser [] =
      .ok (requestParser, pd))
    (h3 : requestParser req = .error e) :
    handleRequest env req sc = fatalErrorResponse e ∧
    (fatalErrorResponse e).status = 500 ∧
    (fatalErrorResponse e).body =
      some (Json.obj [("errors", Json.arr [errorJson e])]) := by
  refine ⟨?_, rfl, rfl⟩
  simp [handleRequest, handleRequestAux, h1, h2, h3]

/-- Witness for the amended C6 at the concrete throwing parser. -/
theorem parse_error_yields_500_witness :
    handleRequest envParseErr reqPlain [] =
      fatalErrorResponse (.other "Unexpected token in JSON") :=
  (parse_error_yields_500 envParseErr reqPlain [] throwingParserC6 []
    (.other "Unexpected token in JSON") [] [] rfl rfl rfl).1

end Yoga

namespace Yoga

/-- C7 (amended): a request whose path (query string stripped) ends with
`/health` and which is not ended by an earlier `onRequest` hook is answered
in the early-intercept phase by the health-check hook with status 200, the
fixed liveness body and the `x-yoga-id` identity header; the parse hooks and
the execution engine are universally quantified and never consulted. -/
theorem health_endpoint_early_intercept
    (pre rest : List OnRequestHook) (pouts : List HookOutcome)
    (id : String) (fetchFn : String → Except JsError Response)
    (req : Request) (sc : Ctx)
    (parseHooks : List OnRequestParseHook)
    (engine : Request → Ctx → Except JsError Response)
    (hpath : strEndsWith (pathBeforeQuery req.url) "/health" = true)
    (hpre : List.Forall₂ (fun h o => h req = .ok o ∧ o.response = none) pre pouts)
    (hdones : ∀ q ∈ regsFrom 0 pouts, q.2 (healthResponse id) = .ok ()) :
    handleRequest ⟨pre ++ healthCheckOnRequest id fetchFn :: rest,
        parseHooks, engine⟩ req sc = healthResponse id ∧
    (healthResponse id).status = 200 ∧
    (healthResponse id).body = some (Json.obj [("message", Json.str "alive")]) ∧
    getHeader (healthResponse id).headers "x-yoga-id" = some id := by
  have hhc : healthCheckOnRequest id fetchFn req =
      .ok { response := some (healthResponse id), onRequestDone := none } := by
    simp [healthCheckOnRequest, healthCheckRun, hpath]
  have hd : ∀ q ∈ ([] : List (Nat × DoneHook)) ++ regsFrom 0 pouts ++
      regsFrom (0 + pre.length)
        [{ response := some (healthResponse id), onRequestDone := none }],
      q.2 (healthResponse id) = .ok () := by
    intro q hq
    apply hdones
    simpa [regsFrom] using hq
  have hmain : ∃ acc evs,
      earlyPhase (pre ++ healthCheckOnRequest id fetchFn :: rest) 0 req [] =
        .ok (some (healthResponse id), acc, evs) := by
    rw [earlyPhase_skip req hpre _ 0 []]
    rw [earlyPhase_end _ rest (0 + pre.length) req ([] ++ regsFrom 0 pouts)
      { response := some (healthResponse id), onRequestDone := none }
      (healthResponse id) hhc rfl (by simpa using hd)]
    exact ⟨_, _, rfl⟩
  rcases hmain with ⟨acc, evs, he⟩
  refine ⟨?_, rfl, rfl, ?_⟩
  · simp [handleRequest, handleRequestAux, he]
  · simp [healthResponse, getHeader, List.find?]

/-- A fetch capability that always rejects; the C7 witness uses it to show
the `/health` answer does not consult `fetch`. -/
def fetchRefuse : String → Except JsError Response :=
  fun _ => .error (.other "connection refused")

/-- The outcome of the CORS `onRequest` hook on a non-`OPTIONS` request. -/
def corsObserverOutcome : HookOutcome :=
  { response := none, onRequestDone := some (fun _ => .ok ()) }

/-- The C7 witness request. -/
def reqHealth : Request := { method := "GET", url := "http://yoga/health" }

/-- Witness for C7: behind the CORS plugin, a GET to `/health` is answered
with the liveness response. -/
theorem health_endpoint_early_intercept_witness :
    handleRequest ⟨[useCORSOnRequest polEmpty] ++
        healthCheckOnRequest "yoga" fetchRefuse :: [], [], engine0⟩
      reqHealth [] = healthResponse "yoga" := by
  have hcors : useCORSOnRequest polEmpty reqHealth = .ok corsObserverOutcome := by
    simp only [useCORSOnRequest]
    rw [if_neg (by decide)]
    rfl
  have hpre : List.Forall₂ (fun h o => h reqHealth = .ok o ∧ o.response = none)
      [useCORSOnRequest polEmpty] [corsObserverOutcome] :=
    List.Forall₂.cons ⟨hcors, rfl⟩ List.Forall₂.nil
  have hdones : ∀ q ∈ regsFrom 0 [corsObserverOutcome],
      q.2 (healthResponse "yoga") = .ok () := by
    intro q hq
    simp [regsFrom, corsObserverOutcome] at hq
    subst hq
    rfl
  exact (health_endpoint_early_intercept [useCORSOnRequest polEmpty] []
    [corsObserverOutcome] "yoga" fetchRefuse reqHealth [] [] engine0
    (by decide) hpre hdones).1

end Yoga

namespace Yoga

/-- C8: on a `/readiness` request (behind pure-observer hooks), the prober
performs exactly one outbound fetch, to the request URL with `/readiness`
replaced by `/health`; it answers 200 `{"message":"ready"}` precisely when
that round trip returned status 200, an `x-yoga-id` header equal to this
instance's identity, and a JSON body whose `message` is `alive`; on any
mismatch it throws, and the lifecycle's fatal fallback renders the 500
response; a body that is not JSON likewise ends in the 500 fallback. -/
theorem readiness_probe_roundtrip
    (pre rest : List OnRequestHook) (pouts : List HookOutcome)
    (id : String) (fetchFn : String → Except JsError Response)
    (req : Request) (sc : Ctx)
    (parseHooks : List OnRequestParseHook)
    (engine : Request → Ctx → Except JsError Response)
    (resp : Response)
    (hpath : strEndsWith (pathBeforeQuery req.url) "/readiness" = true)
    (hnh : strEndsWith (pathBeforeQuery req.url) "/health" = false)
    (hfetch : fetchFn (replaceFirst req.url "/readiness" "/health") = .ok resp)
    (hpre : List.Forall₂ (fun h o => h req = .ok o ∧ o.response = none) pre pouts)
    (hdones : ∀ q ∈ regsFrom 0 pouts, q.2 readyResponse = .ok ()) :
    (healthCheckRun id fetchFn req).2 =
      [replaceFirst req.url "/readiness" "/health"] ∧
    (∀ j, resp.body = some j →
      ((resp.status == 200 &&
          (getHeader resp.headers "x-yoga-id" == some id) &&
          isStrEq (jsonObjGet j "message") "alive") = true →
        handleRequest ⟨pre ++ healthCheckOnRequest id fetchFn :: rest,
            parseHooks, engine⟩ req sc = readyResponse) ∧
      ((resp.status == 200 &&
          (getHeader resp.headers "x-yoga-id" == some id) &&
          isStrEq (jsonObjGet j "message") "alive") = false →
        handleRequest ⟨pre ++ healthCheckOnRequest id fetchFn :: rest,
            parseHooks, engine⟩ req sc =
          fatalErrorResponse (.other
            ("Readiness check failed with status " ++ toString resp.status)) ∧
        (fatalErrorResponse (.other
            ("Readiness check failed with status " ++
              toString resp.status))).status = 500)) ∧
    (resp.body = none →
      handleRequest ⟨pre ++ healthCheckOnRequest id fetchFn :: rest,
          parseHooks, engine⟩ req sc =
        fatalErrorResponse (.other "Unexpected end of JSON input")) := by
  refine ⟨?_, ?_, ?_⟩
  · simp [healthCheckRun, hpath, hnh]
  · intro j hbody
    constructor
    · intro hc
      have hhc : healthCheckOnRequest id fetchFn req =
          .ok { response := some readyResponse, onRequestDone := none } := by
        simp [healthCheckOnRequest, healthCheckRun, hpath, hnh, hfetch,
          hbody, hc]
      have hd : ∀ q ∈ ([] : List (Nat × DoneHook)) ++ regsFrom 0 pouts ++
          regsFrom (0 + pre.length)
            [{ response := some readyResponse, onRequestDone := none }],
          q.2 readyResponse = .ok () := by
        intro q hq
        apply hdones
        simpa [regsFrom] using hq
      have hmain : ∃ acc evs,
          earlyPhase (pre ++ healthCheckOnRequest id fetchFn :: rest) 0
            req [] = .ok (some readyResponse, acc, evs) := by
        rw [earlyPhase_skip req hpre _ 0 []]
        rw [earlyPhase_end _ rest (0 + pre.length) req ([] ++ regsFrom 0 pouts)
          { response := some readyResponse, onRequestDone := none }
          readyResponse hhc rfl (by simpa using hd)]
        exact ⟨_, _, rfl⟩
      rcases hmain with ⟨acc, evs, he⟩
      simp [handleRequest, handleRequestAux, he]
    · intro hc
      have herr : healthCheckOnRequest id fetchFn req =
          .error (.other ("Readiness check failed with status " ++
            toString resp.status)) := by
        simp [healthCheckOnRequest, healthCheckRun, hpath, hnh, hfetch,
          hbody, hc]
      have hskip := earlyPhase_skip_error req hpre
        (healthCheckOnRequest id fetchFn) rest 0 [] _ herr
      exact ⟨by simp [handleRequest, handleRequestAux, hskip], rfl⟩
  · intro hbody
    have herr : healthCheckOnRequest id fetchFn req =
        .error (.other "Unexpected end of JSON input") := by
      simp [healthCheckOnRequest, healthCheckRun, hpath, hnh, hfetch, hbody]
    have hskip := earlyPhase_skip_error req hpre
      (healthCheckOnRequest id fetchFn) rest 0 [] _ herr
    simp [handleRequest, handleRequestAux, hskip]

/-- A fetch capability that reaches this same server's `/health`, used by the
C8 witness. -/
def fetchSelf : String → Except JsError Response := fun u =>
  if u = "http://yoga/health" then .ok (healthResponse "yoga")
  else .error (.other "connection refused")

/-- The C8 witness request. -/
def reqReady : Request := { method := "GET", url := "http://yoga/readiness" }

/-- Witness for C8: probing a server that answers with its own identity
yields the 200 ready response. -/
theorem readiness_probe_roundtrip_witness :
    handleRequest ⟨[] ++ healthCheckOnRequest "yoga" fetchSelf :: [], [],
        engine0⟩ reqReady [] = readyResponse := by
  have h := readiness_probe_roundtrip [] [] [] "yoga" fetchSelf reqReady []
    [] engine0 (healthResponse "yoga") (by decide) (by decide) (by rfl)
    List.Forall₂.nil (by intro q hq; simp [regsFrom] at hq)
  exact (h.2.1 (Json.obj [("message", Json.str "alive")]) rfl).1 (by decide)

end Yoga

namespace Yoga

theorem partHeaderSum_cons (p : Part) (ps : List Part) :
    partHeaderSum (p :: ps) = p.headerBytes + partHeaderSum ps := by
  simp [partHeaderSum]

theorem fileCount_cons (p : Part) (ps : List Part) :
    fileCount (p :: ps) =
      (if isFilePart p = true then 1 else 0) + fileCount ps := by
  by_cases h : isFilePart p = true
  · simp [fileCount, List.filter_cons, h, Nat.add_comm]
  · simp [fileCount, List.filter_cons, h]

theorem partFileBytes_of_not_file (p : Part) (h : isFilePart p = false) :
    partFileBytes p = 0 := by
  cases hb : p.body with
  | field c n => simp [partFileBytes, hb]
  | file cs => simp [isFilePart, hb] at h

theorem bufferFile_error (limit : Nat) :
    ∀ (chunks : List (List Nat)) (size : Nat) (acc : List Nat) (e),
    bufferFile limit size chunks acc = .error e →
    e = .payloadTooLarge .fileSize ∧
      size + (chunks.map List.length).sum > limit := by
  intro chunks
  induction chunks with
  | nil => intro size acc e h; simp [bufferFile] at h
  | cons c cs ih =>
      intro size acc e h
      rw [bufferFile] at h
      by_cases hc : size + c.length > limit
      · rw [if_pos hc] at h
        injection h with h
        refine ⟨h.symm, ?_⟩
        simp only [List.map_cons, List.sum_cons]
        omega
      · rw [if_neg hc] at h
        have := ih (size + c.length) (acc ++ c) e h
        refine ⟨this.1, ?_⟩
        simp only [List.map_cons, List.sum_cons]
        omega

theorem bufferFile_ok (limit : Nat) :
    ∀ (chunks : List (List Nat)) (size : Nat) (acc bytes : List Nat),
    bufferFile limit size chunks acc = .ok bytes →
    size + (chunks.map List.length).sum ≤ limit ∨ chunks = [] := by
  intro chunks
  induction chunks with
  | nil => intro size acc bytes h; exact Or.inr rfl
  | cons c cs ih =>
      intro size acc bytes h
      rw [bufferFile] at h
      by_cases hc : size + c.length > limit
      · rw [if_pos hc] at h; simp at h
      · rw [if_neg hc] at h
        rcases ih (size + c.length) (acc ++ c) bytes h with hle | hnil
        · left; simp only [List.map_cons, List.sum_cons]; omega
        · left
          subst hnil
          simp only [List.map_cons, List.map_nil, List.sum_cons, List.sum_nil]
          omega

theorem decodePart_error_cases (limits : MultipartLimits) (st : DecodeState)
    (p : Part) (e : MultipartError) (h : decodePart limits st p = .error e) :
    (e = .payloadTooLarge .headerSize ∧
      st.headerBytes + p.headerBytes > limits.headerSize) ∨
    (e = .payloadTooLarge .fieldSize ∧
      ∃ n, partFieldSize p = some n ∧ n > limits.fieldSize) ∨
    (e = .payloadTooLarge .files ∧ isFilePart p = true ∧
      st.filesSeen + 1 > limits.files) ∨
    (e = .payloadTooLarge .fileSize ∧ partFileBytes p > limits.fileSize) := by
  rw [decodePart] at h
  by_cases hh : st.headerBytes + p.headerBytes > limits.headerSize
  · rw [if_pos hh] at h
    injection h with h
    exact Or.inl ⟨h.symm, hh⟩
  · rw [if_neg hh] at h
    cases hb : p.body with
    | field content size =>
        rw [hb] at h
        dsimp only at h
        by_cases hf : size > limits.fieldSize
        · rw [if_pos hf] at h
          injection h with h
          exact Or.inr (Or.inl ⟨h.symm, size, by simp [partFieldSize, hb], hf⟩)
        · rw [if_neg hf] at h
          split at h
          · simp at h
          · split at h <;> simp at h
    | file chunks =>
        rw [hb] at h
        dsimp only at h
        by_cases hfl : st.filesSeen + 1 > limits.files
        · rw [if_pos hfl] at h
          injection h with h
          exact Or.inr (Or.inr (Or.inl ⟨h.symm, by simp [isFilePart, hb], hfl⟩))
        · rw [if_neg hfl] at h
          cases hbf : bufferFile limits.fileSize 0 chunks [] with
          | error e' =>
              rw [hbf] at h
              injection h with h
              have hbe := bufferFile_error limits.fileSize chunks 0 [] e' hbf
              subst h
              refine Or.inr (Or.inr (Or.inr ⟨hbe.1, ?_⟩))
              have := hbe.2
              simp only [partFileBytes, hb]
              omega
          | ok bytes => rw [hbf] at h; simp at h

theorem decodePart_ok_facts (limits : MultipartLimits) (st : DecodeState)
    (p : Part) (st' : DecodeState) (h : decodePart limits st p = .ok st') :
    st'.headerBytes = st.headerBytes + p.headerBytes ∧
    st'.headerBytes ≤ limits.headerSize ∧
    (isFilePart p = false → st'.filesSeen = st.filesSeen) ∧
    (isFilePart p = true → st'.filesSeen = st.filesSeen + 1 ∧
      st'.filesSeen ≤ limits.files ∧ partFileBytes p ≤ limits.fileSize) ∧
    (∀ n, partFieldSize p = some n → n ≤ limits.fieldSize) := by
  rw [decodePart] at h
  by_cases hh : st.headerBytes + p.headerBytes > limits.headerSize
  · rw [if_pos hh] at h; simp at h
  · rw [if_neg hh] at h
    cases hb : p.body with
    | field content size =>
        rw [hb] at h
        dsimp only at h
        by_cases hf : size > limits.fieldSize
        · rw [if_pos hf] at h; simp at h
        · rw [if_neg hf] at h
          have hfile : isFilePart p = false := by simp [isFilePart, hb]
          have hfield : ∀ n, partFieldSize p = some n → n ≤ limits.fieldSize := by
            intro n hn
            simp only [partFieldSize, hb, Option.some.injEq] at hn
            omega
          split at h <;> try split at h
          all_goals
            injection h with h
          all_goals
            subst h
          all_goals
            exact ⟨rfl, by dsimp only; omega, fun _ => rfl,
              fun hc => absurd hc (by simp [hfile]), hfield⟩
    | file chunks =>
        rw [hb] at h
        dsimp only at h
        by_cases hfl : st.filesSeen + 1 > limits.files
        · rw [if_pos hfl] at h; simp at h
        · rw [if_neg hfl] at h
          cases hbf : bufferFile limits.fileSize 0 chunks [] with
          | error e' => rw [hbf] at h; simp at h
          | ok bytes =>
              rw [hbf] at h
              injection h with h
              subst h
              have hbytes : partFileBytes p ≤ limits.fileSize := by
                rcases bufferFile_ok limits.fileSize chunks 0 [] bytes hbf with
                  hle | hnil
                · simp only [partFileBytes, hb]; omega
                · subst hnil
                  simp [partFileBytes, hb]
              exact ⟨rfl, by dsimp only; omega,
                fun hc => absurd hc (by simp [isFilePart, hb]),
                fun _ => ⟨rfl, by dsimp only; omega, hbytes⟩,
                fun n hn => by simp [partFieldSize, hb] at hn⟩

end Yoga

namespace Yoga

/-- The input exceeds the given limit when decoding starts from state `st`. -/
def exceededFrom (limits : MultipartLimits) (st : DecodeState)
    (parts : List Part) : LimitKind → Prop
  | .headerSize => st.headerBytes + partHeaderSum parts > limits.headerSize
  | .files => st.filesSeen + fileCount parts > limits.files
  | .fieldSize =>
      ∃ p ∈ parts, ∃ n, partFieldSize p = some n ∧ n > limits.fieldSize
  | .fileSize => ∃ p ∈ parts, partFileBytes p > limits.fileSize

theorem decodeParts_error_sound (limits : MultipartLimits) :
    ∀ (parts : List Part) (st : DecodeState) (e : MultipartError),
    decodeParts limits st parts = .error e →
    ∃ k, e = .payloadTooLarge k ∧ exceededFrom limits st parts k := by
  intro parts
  induction parts with
  | nil => intro st e h; simp [decodeParts] at h
  | cons p ps ih =>
      intro st e h
      rw [decodeParts] at h
      cases hd : decodePart limits st p with
      | error e' =>
          rw [hd] at h
          injection h with h
          subst h
          rcases decodePart_error_cases limits st p e' hd with
            ⟨he, hb⟩ | ⟨he, n, hn, hb⟩ | ⟨he, hf, hb⟩ | ⟨he, hb⟩
          · exact ⟨.headerSize, he, by
              simp only [exceededFrom, partHeaderSum_cons]; omega⟩
          · exact ⟨.fieldSize, he, p, List.mem_cons_self _ _, n, hn, hb⟩
          · refine ⟨.files, he, ?_⟩
            simp only [exceededFrom, fileCount_cons, hf, if_pos]
            omega
          · exact ⟨.fileSize, he, p, List.mem_cons_self _ _, hb⟩
      | ok st₁ =>
          rw [hd] at h
          rcases ih st₁ e h with ⟨k, he, hex⟩
          have hf := decodePart_ok_facts limits st p st₁ hd
          refine ⟨k, he, ?_⟩
          cases k with
          | headerSize =>
              simp only [exceededFrom, partHeaderSum_cons]
              simp only [exceededFrom] at hex
              omega
          | files =>
              simp only [exceededFrom, fileCount_cons]
              simp only [exceededFrom] at hex
              cases hfp : isFilePart p with
              | true =>
                  have := (hf.2.2.2.1 hfp).1
                  simp only [if_pos]
                  omega
              | false =>
                  have := hf.2.2.1 hfp
                  simp only [Bool.false_eq_true, if_neg, if_false]
                  omega
          | fieldSize =>
              rcases hex with ⟨p', hp', n, hn, hb⟩
              exact ⟨p', List.mem_cons_of_mem _ hp', n, hn, hb⟩
          | fileSize =>
              rcases hex with ⟨p', hp', hb⟩
              exact ⟨p', List.mem_cons_of_mem _ hp', hb⟩

theorem decodeParts_ok_bounds (limits : MultipartLimits) :
    ∀ (parts : List Part) (st st' : DecodeState),
    decodeParts limits st parts = .ok st' →
    st'.headerBytes = st.headerBytes + partHeaderSum parts ∧
    st'.filesSeen = st.filesSeen + fileCount parts ∧
    (∀ p ∈ parts, ∀ n, partFieldSize p = some n → n ≤ limits.fieldSize) ∧
    (∀ p ∈ parts, partFileBytes p ≤ limits.fileSize) ∧
    (parts = [] ∨ st'.headerBytes ≤ limits.headerSize) ∧
    (fileCount parts = 0 ∨ st'.filesSeen ≤ limits.files) := by
  intro parts
  induction parts with
  | nil =>
      intro st st' h
      rw [decodeParts] at h
      injection h with h
      subst h
      refine ⟨by simp [partHeaderSum], by simp [fileCount], ?_, ?_,
        Or.inl rfl, Or.inl (by simp [fileCount])⟩
      · intro p hp; simp at hp
      · intro p hp; simp at hp
  | cons p ps ih =>
      intro st st' h
      rw [decodeParts] at h
      cases hd : decodePart limits st p with
      | error e' => rw [hd] at h; simp at h
      | ok st₁ =>
          rw [hd] at h
          have hfacts := decodePart_ok_facts limits st p st₁ hd
          have hih := ih st₁ st' h
          have hfileBytes : partFileBytes p ≤ limits.fileSize := by
            cases hfp : isFilePart p with
            | true => exact (hfacts.2.2.2.1 hfp).2.2
            | false => rw [partFileBytes_of_not_file p hfp]; omega
          have hfs : st'.filesSeen = st.filesSeen + fileCount (p :: ps) := by
            rw [fileCount_cons]
            cases hfp : isFilePart p with
            | true =>
                have := (hfacts.2.2.2.1 hfp).1
                simp only [if_pos]
                omega
            | false =>
                have := hfacts.2.2.1 hfp
                simp only [Bool.false_eq_true, if_false]
                omega
          refine ⟨?_, hfs, ?_, ?_, ?_, ?_⟩
          · rw [partHeaderSum_cons]
            omega
          · intro q hq n hn
            rcases List.mem_cons.mp hq with rfl | hq'
            · exact hfacts.2.2.2.2 n hn
            · exact hih.2.2.1 q hq' n hn
          · intro q hq
            rcases List.mem_cons.mp hq with rfl | hq'
            · exact hfileBytes
            · exact hih.2.2.2.1 q hq'
          · right
            rcases hih.2.2.2.2.1 with hnil | hle
            · subst hnil
              have : st'.headerBytes = st₁.headerBytes := by
                have := hih.1
                simp [partHeaderSum] at this
                omega
              omega
            · exact hle
          · cases hfp : isFilePart p with
            | true =>
                right
                rcases hih.2.2.2.2.2 with hfc0 | hle
                · have h1 := (hfacts.2.2.2.1 hfp).2.1
                  omega
                · exact hle
            | false =>
                rcases hih.2.2.2.2.2 with hfc0 | hle
                · left
                  rw [fileCount_cons]
                  simp only [hfp, Bool.false_eq_true, if_false]
                  omega
                · exact Or.inr hle

theorem decodeParts_append_error (limits : MultipartLimits) :
    ∀ (preParts postParts : List Part) (st : DecodeState) (e : MultipartError),
    decodeParts limits st preParts = .error e →
    decodeParts limits st (preParts ++ postParts) = .error e := by
  intro preParts
  induction preParts with
  | nil => intro postParts st e h; simp [decodeParts] at h
  | cons p ps ih =>
      intro postParts st e h
      rw [decodeParts] at h
      rw [List.cons_append, decodeParts]
      cases hd : decodePart limits st p with
      | error e' =>
          rw [hd] at h
          dsimp only at h ⊢
          exact h
      | ok st₁ =>
          rw [hd] at h
          dsimp only at h ⊢
          exact ih postParts st₁ e h

end Yoga

namespace Yoga

/-- C9 (spec-modelled decoder): if any configured resource limit is exceeded
by the part stream, the decode aborts with a `PayloadTooLargeError` naming a
limit that is genuinely exceeded, and no ParamBag is produced (the result is
an error, not an `ok`); moreover the abort is immediate — once a prefix of
the stream fails, appending further parts can never change the outcome. -/
theorem multipart_limit_aborts (limits : MultipartLimits) (parts : List Part)
    (h : ∃ k, exceededKind limits parts k) :
    (∃ k, decodeMultipart limits parts = .error (.payloadTooLarge k) ∧
      exceededKind limits parts k) ∧
    (∀ (preParts postParts : List Part) (e : MultipartError),
      decodeParts limits {} preParts = .error e →
      decodeParts limits {} (preParts ++ postParts) = .error e) := by
  refine ⟨?_, fun preParts postParts e =>
    decodeParts_append_error limits preParts postParts {} e⟩
  have hkind : ∀ k, exceededFrom limits {} parts k ↔ exceededKind limits parts k := by
    intro k
    cases k with
    | headerSize =>
        simp only [exceededFrom, exceededKind]
        constructor <;> (intro hh; omega)
    | files =>
        simp only [exceededFrom, exceededKind]
        constructor <;> (intro hh; omega)
    | fieldSize => exact Iff.rfl
    | fileSize => exact Iff.rfl
  cases hdec : decodeParts limits {} parts with
  | error e =>
      rcases decodeParts_error_sound limits parts {} e hdec with ⟨k, he, hex⟩
      subst he
      refine ⟨k, ?_, (hkind k).mp hex⟩
      simp [decodeMultipart, hdec]
  | ok st =>
      exfalso
      have hb := decodeParts_ok_bounds limits parts {} st hdec
      rcases h with ⟨k, hk⟩
      cases k with
      | headerSize =>
          simp only [exceededKind] at hk
          rcases hb.2.2.2.2.1 with hnil | hle
          · subst hnil; simp [partHeaderSum] at hk
          · have h1 := hb.1
            omega
      | files =>
          simp only [exceededKind] at hk
          rcases hb.2.2.2.2.2 with hfc0 | hle
          · omega
          · have h1 := hb.2.1
            omega
      | fieldSize =>
          simp only [exceededKind] at hk
          rcases hk with ⟨p, hp, n, hn, hgt⟩
          have := hb.2.2.1 p hp n hn
          omega
      | fileSize =>
          simp only [exceededKind] at hk
          rcases hk with ⟨p, hp, hgt⟩
          have := hb.2.2.2.1 p hp
          omega

/-- Limits with a small `fileSize`, used by the C9 witness. -/
def limitsWit : MultipartLimits :=
  { fileSize := 4, files := 10, fieldSize := 100, headerSize := 100 }

/-- A single file part whose chunks total 6 bytes, exceeding `fileSize := 4`. -/
def bigFilePart : Part :=
  { name := "0", headerBytes := 10, body := .file [[1, 2, 3], [4, 5, 6]] }

/-- Witness for C9: a file exceeding the `fileSize` limit makes the decode
abort with a `PayloadTooLargeError` naming an exceeded limit. -/
theorem multipart_limit_aborts_witness :
    ∃ k, decodeMultipart limitsWit [bigFilePart] = .error (.payloadTooLarge k) ∧
      exceededKind limitsWit [bigFilePart] k := by
  have hex : exceededKind limitsWit [bigFilePart] .fileSize :=
    ⟨bigFilePart, List.mem_singleton_self _, by decide⟩
  exact (multipart_limit_aborts limitsWit [bigFilePart] ⟨.fileSize, hex⟩).1

end Yoga

namespace Yoga

/-- The C7 counterexample request: an `OPTIONS` preflight whose path ends
with `/health`. -/
def reqOptionsHealth : Request :=
  { method := "OPTIONS", url := "http://yoga/health" }

/-- The CORS preflight answer to `reqOptionsHealth`. -/
def resp204 : Response :=
  { status := 204, statusText := "",
    headers := getCORSResponseHeaders reqOptionsHealth polEmpty,
    body := none }

/-- C7 counterexample: an `OPTIONS` request to `/health` is intercepted by
the CORS plugin — registered before the health check in the server
constructor — and answered 204 with a null body; the liveness response is
never produced, refuting the claim for every request with a `/health`
path. -/
theorem health_options_preflight_intercepted :
    (handleRequest ⟨[useCORSOnRequest polEmpty,
        healthCheckOnRequest "yoga" fetchRefuse], [], engine0⟩
      reqOptionsHealth []).status = 204 ∧
    ¬((handleRequest ⟨[useCORSOnRequest polEmpty,
        healthCheckOnRequest "yoga" fetchRefuse], [], engine0⟩
      reqOptionsHealth []).status = 200) ∧
    (handleRequest ⟨[useCORSOnRequest polEmpty,
        healthCheckOnRequest "yoga" fetchRefuse], [], engine0⟩
      reqOptionsHealth []).body = none := by
  have hcors : useCORSOnRequest polEmpty reqOptionsHealth =
      .ok { response := some resp204, onRequestDone := none } := by
    simp only [useCORSOnRequest]
    rw [if_pos (by decide)]
    rfl
  have hend := earlyPhase_end (useCORSOnRequest polEmpty)
    [healthCheckOnRequest "yoga" fetchRefuse] 0 reqOptionsHealth []
    { response := some resp204, onRequestDone := none } resp204 hcors rfl
    (by intro q hq; simp [regsFrom] at hq)
  have hR : handleRequest ⟨[useCORSOnRequest polEmpty,
      healthCheckOnRequest "yoga" fetchRefuse], [], engine0⟩
      reqOptionsHealth [] = resp204 := by
    simp [handleRequest, handleRequestAux, hend]
  rw [hR]
  exact ⟨rfl, by decide, rfl⟩

end Yoga
